import Mathlib

/-!
# Verification of the parallel band-scan engine (`p_band_scan.c`)

Shallow embedding of the band-analysis engine: the static band
partitioner inside `worker`, the per-worker band loop writing into the
shared `band_power` table, the `analyze_signal` anomaly pass, the
`remove_dc` preprocessing step, and `main`'s configuration assertions
and thread start/join bookkeeping.  Machine floating point is modelled
by exact rational arithmetic; C `int`/`long` loop indices (all
non-negative in the program) are modelled by `Nat`.
-/

namespace PBandScan

/-! ## Constants (`p_band_scan.c` lines 15-18) -/

/-- `#define THRESHOLD 2.0` -/
def THRESHOLD : ℚ := 2

/-- `#define ALIENS_LOW 50000.0` -/
def ALIENS_LOW : ℚ := 50000

/-- `#define ALIENS_HIGH 150000.0` -/
def ALIENS_HIGH : ℚ := 150000

/-! ## Scalar helpers (`avg_of`, lines 57-64) -/

/-- `avg_of(double* data, int num)`: sum divided by length (lines 57-64).
For the empty list rational division by zero yields 0. -/
def avg_of (data : List ℚ) : ℚ := data.sum / data.length

/-- `remove_dc(double* data, int num)` (lines 66-75): subtract the mean
from every sample in place; modelled functionally. -/
def remove_dc (data : List ℚ) : List ℚ :=
  data.map (fun x => x - avg_of data)

/-! ## Band partitioner (`worker`, lines 89-100) -/

/-- `int bbands = num_bands / num_threads;` (line 89) -/
def base_bands (B T : ℕ) : ℕ := B / T

/-- `int ebands = num_bands % num_threads;` (line 90) -/
def extra_bands (B T : ℕ) : ℕ := B % T

/-- `start_i` as computed by `worker` for thread `id` (lines 91-100):
`start_i = myid*bbands` then `+= myid` if `myid < ebands` else `+= ebands`. -/
def start_i (B T id : ℕ) : ℕ :=
  if id < extra_bands B T then id * base_bands B T + id
  else id * base_bands B T + extra_bands B T

/-- `end_i` as computed by `worker` for thread `id` (lines 92-100):
`end_i = bbands` then `end_i += start_i + 1` in the if-branch,
`end_i += start_i` in the else-branch. -/
def end_i (B T id : ℕ) : ℕ :=
  if id < extra_bands B T then start_i B T id + base_bands B T + 1
  else start_i B T id + base_bands B T

lemma start_i_eq (B T id : ℕ) :
    start_i B T id = id * base_bands B T + min id (extra_bands B T) := by
  unfold start_i
  rcases lt_or_ge id (extra_bands B T) with h | h
  · simp [h, Nat.min_eq_left (Nat.le_of_lt h)]
  · simp [Nat.not_lt.mpr h, Nat.min_eq_right h]

lemma end_i_eq_start_succ (B T id : ℕ) :
    end_i B T id = start_i B T (id + 1) := by
  unfold end_i
  rw [start_i_eq, start_i_eq]
  rcases lt_or_ge id (extra_bands B T) with h | h
  · rcases lt_or_ge (id + 1) (extra_bands B T) with h1 | h1
    · simp [h, Nat.min_eq_left (Nat.le_of_lt h1), Nat.min_eq_left (Nat.le_of_lt h)]
      ring
    · have : extra_bands B T = id + 1 := Nat.le_antisymm h1 h
      simp [h, Nat.min_eq_left (Nat.le_of_lt h), this, Nat.min_eq_right (Nat.le_refl _)]
      ring
  · have h1 : ¬ (id + 1 < extra_bands B T) := by omega
    simp [Nat.not_lt.mpr h, Nat.min_eq_right h, Nat.min_eq_right (by omega : extra_bands B T ≤ id + 1)]
    ring

lemma start_i_le_end_i (B T id : ℕ) : start_i B T id ≤ end_i B T id := by
  unfold end_i
  rcases lt_or_ge id (extra_bands B T) with h | h
  · simp [h]; omega
  · simp [Nat.not_lt.mpr h]

lemma size_eq (B T id : ℕ) :
    end_i B T id - start_i B T id =
      if id < extra_bands B T then base_bands B T + 1 else base_bands B T := by
  unfold end_i
  rcases lt_or_ge id (extra_bands B T) with h | h
  · simp [h]; omega
  · simp [Nat.not_lt.mpr h]

lemma start_i_mono (B T : ℕ) {id id' : ℕ} (h : id ≤ id') :
    start_i B T id ≤ start_i B T id' := by
  rw [start_i_eq, start_i_eq]
  have h1 : id * base_bands B T ≤ id' * base_bands B T :=
    Nat.mul_le_mul_right _ h
  have h2 : min id (extra_bands B T) ≤ min id' (extra_bands B T) :=
    min_le_min h (le_refl _)
  omega

lemma start_i_zero (B T : ℕ) : start_i B T 0 = 0 := by
  rw [start_i_eq]; simp

lemma start_i_top (B T : ℕ) (hT : 1 ≤ T) : start_i B T T = B := by
  rw [start_i_eq]
  have hlt : extra_bands B T < T := Nat.mod_lt _ (by omega)
  rw [Nat.min_eq_right (Nat.le_of_lt hlt)]
  unfold base_bands extra_bands
  exact Nat.div_add_mod B T

lemma exists_owner_aux (B T : ℕ) :
    ∀ k b, b < start_i B T k →
      ∃ id, id < k ∧ start_i B T id ≤ b ∧ b < end_i B T id := by
  intro k
  induction k with
  | zero => intro b hb; rw [start_i_zero] at hb; omega
  | succ k ih =>
    intro b hb
    rcases lt_or_ge b (start_i B T k) with h | h
    · obtain ⟨id, hid, h1, h2⟩ := ih b h
      exact ⟨id, by omega, h1, h2⟩
    · refine ⟨k, by omega, h, ?_⟩
      rw [end_i_eq_start_succ]
      exact hb

lemma exists_owner (B T b : ℕ) (hT : 1 ≤ T) (hb : b < B) :
    ∃ id, id < T ∧ start_i B T id ≤ b ∧ b < end_i B T id := by
  apply exists_owner_aux B T T b
  rw [start_i_top B T hT]
  exact hb

lemma owner_unique (B T b : ℕ) {id id' : ℕ}
    (h1 : start_i B T id ≤ b) (h2 : b < end_i B T id)
    (h1' : start_i B T id' ≤ b) (h2' : b < end_i B T id') :
    id = id' := by
  by_contra hne
  rcases Nat.lt_or_ge id id' with h | h
  · have : end_i B T id ≤ start_i B T id' := by
      rw [end_i_eq_start_succ]
      exact start_i_mono B T h
    omega
  · have hlt : id' < id := by omega
    have : end_i B T id' ≤ start_i B T id := by
      rw [end_i_eq_start_succ]
      exact start_i_mono B T hlt
    omega

/-! ## Worker band loop and the shared band-power table
(`worker`, lines 102-118, and the thread loop in `main`, lines 233-267).

The filter kernel called for each band (`generate_band_pass`,
`hamming_window`, `convolve_and_compute_power`, declared in `filter.h`;
their definitions are not part of this source file) is abstracted as a
function `f : ℕ → ℚ` of the band index.  Modelled from the spec: the
kernel is a deterministic pure function of
`(signal, band_low, band_high, filter_order, Fs)` with no side effects;
for a fixed configuration those arguments are determined by the band
index alone, so the value stored by
`convolve_and_compute_power(..., &band_power[band])` is `f band`. -/

/-- One iteration of the band loop (lines 104-116): store the kernel's
power value for `band` into the shared table. -/
def write_band (f : ℕ → ℚ) (tbl : ℕ → ℚ) (band : ℕ) : ℕ → ℚ :=
  fun b => if b = band then f band else tbl b

/-- The list of bands iterated by `for (int band = start_i; band < end_i; band++)`. -/
def worker_bands (B T id : ℕ) : List ℕ :=
  List.range' (start_i B T id) (end_i B T id - start_i B T id)

/-- The effect of one worker thread on the shared `band_power` table. -/
def worker_run (B T : ℕ) (f : ℕ → ℚ) (id : ℕ) (tbl : ℕ → ℚ) : ℕ → ℚ :=
  (worker_bands B T id).foldl (write_band f) tbl

/-- The `band_power` table after all `num_threads` workers have run and
been joined (`main` lines 233-267).  Workers write disjoint index
ranges, so the sequential fold over worker ids models any interleaving. -/
def run_table (B T : ℕ) (f : ℕ → ℚ) (tbl0 : ℕ → ℚ) : ℕ → ℚ :=
  (List.range T).foldl (fun tbl id => worker_run B T f id tbl) tbl0

lemma foldl_write_band (f : ℕ → ℚ) (l : List ℕ) (tbl : ℕ → ℚ) (b : ℕ) :
    l.foldl (write_band f) tbl b = if b ∈ l then f b else tbl b := by
  induction l generalizing tbl with
  | nil => simp
  | cons a l ih =>
    simp only [List.foldl_cons, List.mem_cons, ih]
    by_cases hb : b ∈ l
    · simp [hb]
    · by_cases hba : b = a
      · subst hba
        simp [hb, write_band]
      · simp [hb, hba, write_band]

lemma worker_run_eq (B T : ℕ) (f : ℕ → ℚ) (id : ℕ) (tbl : ℕ → ℚ) (b : ℕ) :
    worker_run B T f id tbl b =
      if start_i B T id ≤ b ∧ b < end_i B T id then f b else tbl b := by
  unfold worker_run worker_bands
  rw [foldl_write_band]
  have hmem : b ∈ List.range' (start_i B T id) (end_i B T id - start_i B T id) ↔
      start_i B T id ≤ b ∧ b < end_i B T id := by
    rw [List.mem_range'_1]
    have := start_i_le_end_i B T id
    omega
  by_cases h : start_i B T id ≤ b ∧ b < end_i B T id
  · simp [hmem.mpr h, h]
  · have hnm : b ∉ List.range' (start_i B T id) (end_i B T id - start_i B T id) :=
      fun hc => h (hmem.mp hc)
    simp [hnm, h]

lemma foldl_workers_eq (B T : ℕ) (f : ℕ → ℚ) (ids : List ℕ) (tbl0 : ℕ → ℚ) (b : ℕ) :
    ids.foldl (fun tbl id => worker_run B T f id tbl) tbl0 b =
      if ∃ id ∈ ids, start_i B T id ≤ b ∧ b < end_i B T id then f b else tbl0 b := by
  induction ids generalizing tbl0 with
  | nil => simp
  | cons a ids ih =>
    simp only [List.foldl_cons, ih, List.mem_cons]
    by_cases h : ∃ id ∈ ids, start_i B T id ≤ b ∧ b < end_i B T id
    · have : ∃ id, (id = a ∨ id ∈ ids) ∧ start_i B T id ≤ b ∧ b < end_i B T id := by
        obtain ⟨id, hid, hr⟩ := h
        exact ⟨id, Or.inr hid, hr⟩
      simp [h, this]
    · rw [if_neg h, worker_run_eq]
      by_cases ha : start_i B T a ≤ b ∧ b < end_i B T a
      · have hex : ∃ id, (id = a ∨ id ∈ ids) ∧ start_i B T id ≤ b ∧ b < end_i B T id :=
          ⟨a, Or.inl rfl, ha⟩
        simp [ha, hex]
      · have : ¬ ∃ id, (id = a ∨ id ∈ ids) ∧ start_i B T id ≤ b ∧ b < end_i B T id := by
          rintro ⟨id, hor | hmem, hr⟩
          · exact ha (hor ▸ hr)
          · exact h ⟨id, hmem, hr⟩
        simp [ha, this]

lemma run_table_eq (B T : ℕ) (f : ℕ → ℚ) (tbl0 : ℕ → ℚ) (hT : 1 ≤ T)
    (b : ℕ) (hb : b < B) : run_table B T f tbl0 b = f b := by
  unfold run_table
  rw [foldl_workers_eq]
  obtain ⟨id, hid, hr⟩ := exists_owner B T b hT hb
  rw [if_pos ⟨id, List.mem_range.mpr hid, hr⟩]

/-! ## Anomaly analyzer (`analyze_signal`, lines 121-162) -/

/-- `band * bandwidth + 0.0001` (lines 106 and 130). -/
def band_low (bw : ℚ) (band : ℕ) : ℚ := band * bw + 1 / 10000

/-- `(band + 1) * bandwidth - 0.0001` (lines 107 and 131). -/
def band_high (bw : ℚ) (band : ℕ) : ℚ := (band + 1) * bw - 1 / 10000

/-- The window test of lines 140-141:
`(band_low >= ALIENS_LOW && band_low <= ALIENS_HIGH) || (band_high >= ALIENS_LOW && band_high <= ALIENS_HIGH)`. -/
def in_window (bw : ℚ) (band : ℕ) : Bool :=
  (decide (ALIENS_LOW ≤ band_low bw band) && decide (band_low bw band ≤ ALIENS_HIGH)) ||
  (decide (ALIENS_LOW ≤ band_high bw band) && decide (band_high bw band ≤ ALIENS_HIGH))

/-- The flagging condition of lines 140-144: the window test together
with `band_power[band] > THRESHOLD * avg_band_power`. -/
def flagged (bw : ℚ) (bp : List ℚ) (band : ℕ) : Bool :=
  in_window bw band && decide (THRESHOLD * avg_of bp < bp.getD band 0)

/-- Return state of `analyze_signal`: the `wow` flag (nonzero return
value) and the two out-parameters `*lb` and `*ub`. -/
structure AnalyzeResult where
  wow : Bool
  lb : ℚ
  ub : ℚ
deriving DecidableEq

/-- One iteration of the band loop of `analyze_signal` (lines 129-159):
on a flagged band set `wow = 1`, set `*lb` on the first flag
(`if (*lb < 0)`), and always update `*ub`. -/
def analyze_step (bw : ℚ) (bp : List ℚ) (st : AnalyzeResult) (band : ℕ) : AnalyzeResult :=
  if flagged bw bp band then
    { wow := true
      lb := if st.lb < 0 then band_low bw band else st.lb
      ub := band_high bw band }
  else st

/-- `analyze_signal` (lines 121-162): `*lb = *ub = -1` initially
(lines 126-127), then the loop over all bands. -/
def analyze_signal (bw : ℚ) (bp : List ℚ) : AnalyzeResult :=
  (List.range bp.length).foldl (analyze_step bw bp) ⟨false, -1, -1⟩

/-- Interval intersection as the spec words it: band `band`'s range
`[band_low, band_high]` intersects the window `[ALIENS_LOW, ALIENS_HIGH]`.
For nonempty closed intervals this is `band_low ≤ ALIENS_HIGH ∧ ALIENS_LOW ≤ band_high`.
This definition follows the spec's words, for comparison with the
source-derived `in_window`. -/
def intersects_window_spec (bw : ℚ) (band : ℕ) : Bool :=
  decide (band_low bw band ≤ ALIENS_HIGH) && decide (ALIENS_LOW ≤ band_high bw band)

lemma analyze_foldl_no_flag (bw : ℚ) (bp : List ℚ) (l : List ℕ) (st : AnalyzeResult)
    (h : ∀ b ∈ l, flagged bw bp b = false) :
    l.foldl (analyze_step bw bp) st = st := by
  induction l generalizing st with
  | nil => rfl
  | cons a l ih =>
    have ha : flagged bw bp a = false := h a (List.mem_cons_self a l)
    simp only [List.foldl_cons, analyze_step, ha, Bool.false_eq_true, if_false]
    exact ih st (fun b hb => h b (List.mem_cons_of_mem a hb))

lemma band_low_pos (bw : ℚ) (hbw : 0 < bw) (band : ℕ) : 0 < band_low bw band := by
  unfold band_low
  have : (0 : ℚ) ≤ (band : ℚ) * bw := by positivity
  linarith

lemma analyze_foldl_flag (bw : ℚ) (hbw : 0 < bw) (bp : List ℚ) :
    ∀ (l : List ℕ) (st : AnalyzeResult) (fb : ℕ) (rest : List ℕ),
      l.filter (flagged bw bp) = fb :: rest →
      l.foldl (analyze_step bw bp) st =
        ⟨true, if st.lb < 0 then band_low bw fb else st.lb,
          band_high bw ((fb :: rest).getLast (List.cons_ne_nil fb rest))⟩ := by
  intro l
  induction l with
  | nil => intro st fb rest h; simp at h
  | cons a l ih =>
    intro st fb rest h
    by_cases ha : flagged bw bp a = true
    · rw [List.filter_cons_of_pos ha] at h
      obtain ⟨hfa, hrest⟩ : a = fb ∧ l.filter (flagged bw bp) = rest := by
        constructor
        · exact (List.cons.injEq a _ fb rest ▸ h).1
        · exact (List.cons.injEq a _ fb rest ▸ h).2
      subst hfa
      simp only [List.foldl_cons, analyze_step, ha, if_true]
      set st' : AnalyzeResult :=
        ⟨true, if st.lb < 0 then band_low bw a else st.lb, band_high bw a⟩ with hst'
      have hlb' : ¬ st'.lb < 0 := by
        show ¬ (if st.lb < 0 then band_low bw a else st.lb) < 0
        by_cases h0 : st.lb < 0
        · rw [if_pos h0]
          exact not_lt.mpr (le_of_lt (band_low_pos bw hbw a))
        · rw [if_neg h0]
          exact h0
      cases hrl : rest with
      | nil =>
        rw [hrl] at hrest
        rw [analyze_foldl_no_flag bw bp l st'
          (fun b hb => by
            by_contra hc
            have : b ∈ l.filter (flagged bw bp) :=
              List.mem_filter.mpr ⟨hb, by revert hc; cases flagged bw bp b <;> simp⟩
            rw [hrest] at this
            exact absurd this (List.not_mem_nil b))]
        simp [hst', List.getLast_singleton]
      | cons r rs =>
        rw [hrl] at hrest
        rw [ih st' r rs hrest]
        have hlb2 : (if st'.lb < 0 then band_low bw r else st'.lb) =
            (if st.lb < 0 then band_low bw a else st.lb) := by
          rw [if_neg hlb']
        have hub2 : ((a :: r :: rs).getLast (List.cons_ne_nil a (r :: rs))) =
            ((r :: rs).getLast (List.cons_ne_nil r rs)) :=
          List.getLast_cons (List.cons_ne_nil r rs)
        rw [hlb2, hub2]
    · have ha' : flagged bw bp a = false := by revert ha; cases flagged bw bp a <;> simp
      rw [List.filter_cons_of_neg (by simp [ha'])] at h
      simp only [List.foldl_cons, analyze_step, ha', Bool.false_eq_true, if_false]
      exact ih st fb rest h

lemma filter_range_head (p : ℕ → Bool) (n b₀ : ℕ) (hb : b₀ < n) (hp : p b₀ = true)
    (hmin : ∀ b, b < b₀ → p b = false) :
    (List.range n).filter p = b₀ :: (List.range' (b₀ + 1) (n - b₀ - 1)).filter p := by
  have hn : n - b₀ + b₀ = n := by omega
  have h1 : List.range n = List.range' 0 b₀ ++ List.range' (0 + b₀) (n - b₀) := by
    rw [List.range'_append_1 0 b₀ (n - b₀), hn, List.range_eq_range']
  have h2 : List.range' (0 + b₀) (n - b₀) = b₀ :: List.range' (b₀ + 1) (n - b₀ - 1) := by
    have hs : n - b₀ = (n - b₀ - 1) + 1 := by omega
    rw [hs, List.range'_succ]
    simp
  have h3 : (List.range' 0 b₀).filter p = [] := by
    rw [List.filter_eq_nil_iff]
    intro a ha
    rw [List.mem_range'_1] at ha
    simp [hmin a (by omega)]
  rw [h1, h2, List.filter_append, h3, List.filter_cons_of_pos hp, List.nil_append]

lemma filter_range_getLast? (p : ℕ → Bool) (n b₁ : ℕ) (hb : b₁ < n) (hp : p b₁ = true)
    (hmax : ∀ b, b₁ < b → b < n → p b = false) :
    ((List.range n).filter p).getLast? = some b₁ := by
  have hn : n - (b₁ + 1) + (b₁ + 1) = n := by omega
  have h1 : List.range n = List.range' 0 (b₁ + 1) ++ List.range' (0 + (b₁ + 1)) (n - (b₁ + 1)) := by
    rw [List.range'_append_1 0 (b₁ + 1) (n - (b₁ + 1)), hn, List.range_eq_range']
  have h2 : (List.range' (0 + (b₁ + 1)) (n - (b₁ + 1))).filter p = [] := by
    rw [List.filter_eq_nil_iff]
    intro a ha
    rw [List.mem_range'_1] at ha
    simp [hmax a (by omega) (by omega)]
  have h3 : List.range' 0 (b₁ + 1) = List.range b₁ ++ [b₁] := by
    rw [← List.range_eq_range', List.range_succ]
  rw [h1, List.filter_append, h2, List.append_nil, h3, List.filter_append]
  have h4 : List.filter p [b₁] = [b₁] := by
    rw [List.filter_cons_of_pos hp, List.filter_nil]
  rw [h4, List.getLast?_concat]

/-! ## DC removal (`remove_dc`, lines 66-75) -/

lemma sum_map_sub_const (l : List ℚ) (c : ℚ) :
    (l.map (fun x => x - c)).sum = l.sum - l.length * c := by
  induction l with
  | nil => simp
  | cons a l ih =>
    simp only [List.map_cons, List.sum_cons, ih, List.length_cons]
    push_cast
    ring

lemma avg_of_remove_dc (data : List ℚ) : avg_of (remove_dc data) = 0 := by
  rcases eq_or_ne data [] with rfl | hne
  · simp [remove_dc, avg_of]
  · have hlen : (data.length : ℚ) ≠ 0 :=
      Nat.cast_ne_zero.mpr (fun h => hne (List.length_eq_zero.mp h))
    unfold remove_dc avg_of
    rw [List.length_map, sum_map_sub_const]
    field_simp

/-! ## Configuration validation in `main` (lines 164-231)

`main` parses `Fs`, `filter_order`, `num_bands` from `argv[3..5]` and
immediately runs three `assert`s (lines 177-179):
`assert(Fs > 0.0)`, `assert(filter_order > 0 && !(filter_order & 0x1))`,
`assert(num_bands > 0)`.  `num_threads` (`argv[6]`) and `num_proc`
(`argv[7]`) are read later (lines 228-229) and are never checked.  All
of this happens before the `pthread_create` loop (line 234). -/

/-- The conjunction of the three `assert`s at lines 177-179
(`filter_order & 0x1` on a positive `int` is its parity bit, modelled
as `filter_order % 2`). -/
def config_asserts_ok (Fs : ℚ) (filter_order num_bands : ℤ) : Bool :=
  decide (0 < Fs) && (decide (0 < filter_order) && decide (filter_order % 2 = 0)) &&
    decide (0 < num_bands)

/-- Whether `main` aborts on its configuration before the worker pool
is created: exactly the failure of one of the three `assert`s at lines
177-179.  `num_threads` and `num_proc` are arguments only to document
that no check reads them. -/
def config_abort (Fs : ℚ) (filter_order num_bands num_threads num_proc : ℤ) : Bool :=
  !(config_asserts_ok Fs filter_order num_bands)

/-! ## Thread start/join bookkeeping in `main` (lines 233-271) -/

/-- `#define`-less sentinel `0xdeadbeef` stored into `tid[i]` when
`pthread_create` fails (line 246). -/
def DEADBEEF : ℕ := 0xdeadbeef

/-- Outcome of one `pthread_create` call (line 235): whether it
returned 0, and the thread id it stored into `tid[i]` on success. -/
structure CreateOutcome where
  ok : Bool
  handle : ℕ
deriving DecidableEq

/-- The `tid` array after the creation loop (lines 234-248): the real
handle on success, the sentinel on failure. -/
def tid_array (outs : List CreateOutcome) : List ℕ :=
  outs.map (fun o => if o.ok then o.handle else DEADBEEF)

/-- `num_started` as accumulated by the creation loop (lines 233-248). -/
def num_started (outs : List CreateOutcome) : ℕ :=
  outs.foldl (fun n o => if o.ok then n + 1 else n) 0

/-- Observable events of `main` after the creation loop: the join loop
(lines 254-267) joins `tid[i]` exactly when `tid[i] != 0xdeadbeef`, in
increasing `i`; then `analyze_signal` is called (line 271). -/
inductive MainEvent where
  | joinWorker (i : ℕ)
  | analyze
deriving DecidableEq

/-- The event trace of `main` lines 254-271: joins of the non-sentinel
entries in index order, followed by the single `analyze_signal` call. -/
def main_events (outs : List CreateOutcome) : List MainEvent :=
  ((List.range outs.length).filter
      (fun i => !((tid_array outs).getD i 0 == DEADBEEF))).map MainEvent.joinWorker
    ++ [MainEvent.analyze]

lemma flagged_iff (bw : ℚ) (bp : List ℚ) (band : ℕ) :
    flagged bw bp band = true ↔
      (((ALIENS_LOW ≤ band_low bw band ∧ band_low bw band ≤ ALIENS_HIGH) ∨
        (ALIENS_LOW ≤ band_high bw band ∧ band_high bw band ≤ ALIENS_HIGH)) ∧
        THRESHOLD * avg_of bp < bp.getD band 0) := by
  unfold flagged in_window
  simp [Bool.and_eq_true, Bool.or_eq_true, decide_eq_true_eq]

lemma flagged_eq_false_iff (bw : ℚ) (bp : List ℚ) (band : ℕ) :
    flagged bw bp band = false ↔
      ¬ ((((ALIENS_LOW ≤ band_low bw band ∧ band_low bw band ≤ ALIENS_HIGH) ∨
        (ALIENS_LOW ≤ band_high bw band ∧ band_high bw band ≤ ALIENS_HIGH)) ∧
        THRESHOLD * avg_of bp < bp.getD band 0)) := by
  rw [Bool.eq_false_iff, Ne, flagged_iff]

lemma tid_array_getD (outs : List CreateOutcome) (i : ℕ) (h : i < outs.length) :
    (tid_array outs).getD i 0 =
      (if (outs.get ⟨i, h⟩).ok then (outs.get ⟨i, h⟩).handle else DEADBEEF) := by
  induction outs generalizing i with
  | nil => simp at h
  | cons o outs ih =>
    cases i with
    | zero => rfl
    | succ i =>
      have h' : i < outs.length := by
        simpa using h
      simpa [tid_array, List.getD_cons_succ] using ih i h'

lemma num_started_eq_filter (outs : List CreateOutcome) :
    num_started outs = (outs.filter (fun o => o.ok)).length := by
  suffices h : ∀ n, outs.foldl (fun n o => if o.ok then n + 1 else n) n =
      n + (outs.filter (fun o => o.ok)).length by
    simpa [num_started] using h 0
  induction outs with
  | nil => intro n; simp
  | cons o outs ih =>
    intro n
    simp only [List.foldl_cons, List.filter_cons]
    by_cases ho : o.ok = true
    · rw [if_pos ho, if_pos ho, ih]
      simp only [List.length_cons]
      omega
    · rw [if_neg ho, if_neg ho, ih]

/-! ## The claims -/

/-- C2: for all `num_bands ≥ 1` and `num_threads ≥ 1`, each worker id
computes a contiguous range of size `base+1` if `id < extra` else
`base`, the ranges are laid out contiguously in increasing id order,
every band in `[0, num_bands)` is owned by exactly one worker
(no gaps, no overlaps), and any two range sizes differ by at most 1. -/
theorem partition_covers_exactly_once (B T : ℕ) (hB : 1 ≤ B) (hT : 1 ≤ T) :
    (∀ id, id < T → end_i B T id - start_i B T id =
        (if id < extra_bands B T then base_bands B T + 1 else base_bands B T))
    ∧ (∀ id, end_i B T id = start_i B T (id + 1))
    ∧ start_i B T 0 = 0
    ∧ (∀ b, b < B → ∃ id, (id < T ∧ start_i B T id ≤ b ∧ b < end_i B T id) ∧
        ∀ id', (id' < T ∧ start_i B T id' ≤ b ∧ b < end_i B T id') → id' = id)
    ∧ (∀ id id', id < T → id' < T →
        (end_i B T id - start_i B T id) ≤ (end_i B T id' - start_i B T id') + 1) := by
  refine ⟨fun id _ => size_eq B T id, fun id => end_i_eq_start_succ B T id,
    start_i_zero B T, ?_, ?_⟩
  · intro b hb
    obtain ⟨id, hid, h1, h2⟩ := exists_owner B T b hT hb
    exact ⟨id, ⟨hid, h1, h2⟩, fun id' hid' => owner_unique B T b hid'.2.1 hid'.2.2 h1 h2⟩
  · intro id id' _ _
    rw [size_eq, size_eq]
    split <;> split <;> omega

/-- Witness for C2 at `num_bands = 5`, `num_threads = 3`. -/
theorem partition_covers_exactly_once_witness :
    ((1 : ℕ) ≤ 5 ∧ (1 : ℕ) ≤ 3) ∧ (∀ id, end_i 5 3 id = start_i 5 3 (id + 1)) :=
  ⟨by decide, (partition_covers_exactly_once 5 3 (by decide) (by decide)).2.1⟩

/-- C4: for a fixed per-band kernel value function, the band-power
table after a run with any `num_threads ≥ 1` agrees on every band with
the table after a run with `num_threads = 1`: partitioning changes only
which worker computes a band, never the stored value. -/
theorem band_power_table_thread_count_invariant (B T : ℕ) (f : ℕ → ℚ) (tbl0 : ℕ → ℚ)
    (hT : 1 ≤ T) (b : ℕ) (hb : b < B) :
    run_table B T f tbl0 b = run_table B 1 f tbl0 b := by
  rw [run_table_eq B T f tbl0 hT b hb, run_table_eq B 1 f tbl0 (le_refl 1) b hb]

/-- Witness for C4 at `num_bands = 2`, `num_threads = 3`, band 0. -/
theorem band_power_table_thread_count_invariant_witness :
    ((1 : ℕ) ≤ 3 ∧ (0 : ℕ) < 2) ∧
      run_table 2 3 (fun b => (b : ℚ)) (fun _ => 0) 0 =
        run_table 2 1 (fun b => (b : ℚ)) (fun _ => 0) 0 :=
  ⟨by decide,
    band_power_table_thread_count_invariant 2 3 (fun b => (b : ℚ)) (fun _ => 0)
      (by decide) 0 (by decide)⟩

/-- C7: with more threads than bands, every worker id at or beyond
`num_bands` gets the empty range `(start_i, start_i)`, iterates over no
band, and leaves the band-power table untouched (its fold is the
identity, so the worker still terminates normally). -/
theorem excess_workers_empty_range (B T id : ℕ) (hTB : B < T) (hid : B ≤ id)
    (hidT : id < T) (f : ℕ → ℚ) (tbl : ℕ → ℚ) :
    start_i B T id = end_i B T id ∧ worker_bands B T id = [] ∧
      worker_run B T f id tbl = tbl := by
  have hbase : base_bands B T = 0 := Nat.div_eq_of_lt hTB
  have hextra : extra_bands B T = B := Nat.mod_eq_of_lt hTB
  have hs : start_i B T id = B := by
    unfold start_i
    rw [hextra, if_neg (Nat.not_lt.mpr hid), hbase]
    simp
  have he : end_i B T id = B := by
    unfold end_i
    rw [hextra, if_neg (Nat.not_lt.mpr hid), hbase, hs, Nat.add_zero]
  have hwb : worker_bands B T id = [] := by
    unfold worker_bands
    rw [hs, he]
    simp
  refine ⟨by rw [hs, he], hwb, ?_⟩
  unfold worker_run
  rw [hwb]
  rfl

/-- Witness for C7 at `num_bands = 2`, `num_threads = 5`, worker 3. -/
theorem excess_workers_empty_range_witness :
    ((2 : ℕ) < 5 ∧ (2 : ℕ) ≤ 3 ∧ (3 : ℕ) < 5) ∧
      (start_i 2 5 3 = end_i 2 5 3 ∧ worker_bands 2 5 3 = [] ∧
        worker_run 2 5 (fun b => (b : ℚ)) 3 (fun _ => 0) = (fun _ => (0 : ℚ))) :=
  ⟨by decide,
    excess_workers_empty_range 2 5 3 (by decide) (by decide) (by decide)
      (fun b => (b : ℚ)) (fun _ => 0)⟩

/-- C9: `remove_dc` is idempotent in exact arithmetic: after one pass
the mean of the buffer is zero, so a second pass subtracts zero from
every sample. -/
theorem remove_dc_idempotent (data : List ℚ) :
    remove_dc (remove_dc data) = remove_dc data := by
  have h : remove_dc (remove_dc data) =
      (remove_dc data).map (fun x => x - avg_of (remove_dc data)) := rfl
  rw [h, avg_of_remove_dc data]
  simp

/-- C10: when no band is flagged, `analyze_signal` returns 0 (`wow`
stays false) and leaves both out-parameters at their initial sentinel
`-1`. -/
theorem no_flag_returns_sentinel (bw : ℚ) (bp : List ℚ)
    (h : ∀ b, b < bp.length → flagged bw bp b = false) :
    analyze_signal bw bp = ⟨false, -1, -1⟩ := by
  unfold analyze_signal
  exact analyze_foldl_no_flag bw bp _ _ (fun b hb => h b (List.mem_range.mp hb))

/-- Witness for C10 on a two-band table with no band in the window. -/
theorem no_flag_returns_sentinel_witness :
    (∀ b, b < ([1, 1] : List ℚ).length → flagged 1 [1, 1] b = false) ∧
      analyze_signal 1 [1, 1] = ⟨false, -1, -1⟩ := by
  have h : ∀ b, b < ([1, 1] : List ℚ).length → flagged 1 [1, 1] b = false := by
    intro b hb
    have hb2 : b < 2 := hb
    interval_cases b <;>
      · rw [flagged_eq_false_iff]
        norm_num [band_low, band_high, avg_of, ALIENS_LOW, ALIENS_HIGH, THRESHOLD]
  exact ⟨h, no_flag_returns_sentinel 1 [1, 1] h⟩

/-- C1 counterexample: with `bandwidth = 200000` (e.g. `Fs = 1200000`,
`num_bands = 3`) band 0's range `[0.0001, 199999.9999]` intersects the
window `[50000, 150000]` and its power 10 exceeds `2 × mean = 8`, yet
the window test of lines 140-141 checks only the two band edges, finds
neither inside the window, and does not flag the band. -/
theorem analyze_window_test_misses_containing_band :
    intersects_window_spec 200000 0 = true
    ∧ THRESHOLD * avg_of [10, 1, 1] < ([10, 1, 1] : List ℚ).getD 0 0
    ∧ flagged 200000 ([10, 1, 1] : List ℚ) 0 = false := by
  refine ⟨?_, ?_, ?_⟩
  · unfold intersects_window_spec
    rw [Bool.and_eq_true, decide_eq_true_eq, decide_eq_true_eq]
    constructor <;>
      norm_num [band_low, band_high, ALIENS_LOW, ALIENS_HIGH]
  · norm_num [avg_of, THRESHOLD]
  · rw [flagged_eq_false_iff]
    norm_num [band_low, band_high, ALIENS_LOW, ALIENS_HIGH]

/-- C1 amended: `analyze_signal` flags a band exactly when at least one
of its two frequency edges lies inside `[ALIENS_LOW, ALIENS_HIGH]` and
its power strictly exceeds `THRESHOLD × mean`; a band whose range does
not intersect the window is never flagged (for any bandwidth of at
least `0.0002`, the width below which a band's range is empty). -/
theorem band_flagging_requires_edge_in_window (bw : ℚ) (bp : List ℚ) (band : ℕ)
    (hbw : 1 / 5000 ≤ bw) :
    (flagged bw bp band = true ↔
      (((ALIENS_LOW ≤ band_low bw band ∧ band_low bw band ≤ ALIENS_HIGH) ∨
        (ALIENS_LOW ≤ band_high bw band ∧ band_high bw band ≤ ALIENS_HIGH)) ∧
        THRESHOLD * avg_of bp < bp.getD band 0))
    ∧ (intersects_window_spec bw band = false → flagged bw bp band = false) := by
  constructor
  · exact flagged_iff bw bp band
  · intro hint
    have hlh : band_low bw band ≤ band_high bw band := by
      unfold band_low band_high
      have hexp : ((band : ℚ) + 1) * bw = (band : ℚ) * bw + bw := by ring
      rw [hexp]
      linarith
    rw [flagged_eq_false_iff]
    unfold intersects_window_spec at hint
    rw [Bool.and_eq_false_iff] at hint
    simp only [decide_eq_false_iff_not, not_le] at hint
    rintro ⟨⟨h1, h2⟩ | ⟨h1, h2⟩, _⟩ <;> rcases hint with h3 | h3 <;> linarith

/-- Witness for the amended C1 at `bandwidth = 100000`, band 0,
table `[10, 1, 1]`. -/
theorem band_flagging_requires_edge_in_window_witness :
    (1 : ℚ) / 5000 ≤ 100000 ∧
      ((flagged 100000 ([10, 1, 1] : List ℚ) 0 = true ↔
        (((ALIENS_LOW ≤ band_low 100000 0 ∧ band_low 100000 0 ≤ ALIENS_HIGH) ∨
          (ALIENS_LOW ≤ band_high 100000 0 ∧ band_high 100000 0 ≤ ALIENS_HIGH)) ∧
          THRESHOLD * avg_of [10, 1, 1] < ([10, 1, 1] : List ℚ).getD 0 0))
      ∧ (intersects_window_spec 100000 0 = false →
          flagged 100000 ([10, 1, 1] : List ℚ) 0 = false)) :=
  ⟨by norm_num, band_flagging_requires_edge_in_window 100000 [10, 1, 1] 0 (by norm_num)⟩

/-- C3 counterexample: the configuration `Fs = 1`, `filter_order = 2`,
`num_bands = 1`, `num_threads = 0`, `num_processors = 0` violates the
claimed `num_threads ≥ 1` and `num_processors ≥ 1` checks, yet `main`
does not abort before the worker pool: the only pre-pool validation is
the three `assert`s of lines 177-179, which do not read `argv[6]` or
`argv[7]`. -/
theorem thread_count_not_validated :
    ¬ ((1 : ℤ) ≤ 0) ∧ config_abort 1 2 1 0 0 = false := by
  constructor
  · decide
  · unfold config_abort config_asserts_ok
    norm_num

/-- C3 amended: before any worker is created, `main` validates exactly
`Fs > 0`, `filter_order` positive and even, and `num_bands ≥ 1` (each
violation is fatal via `assert`); `num_threads` and `num_processors`
are parsed but never validated, so the abort decision is independent of
them. -/
theorem config_validation_covers_three_asserts (Fs : ℚ) (o b t p : ℤ) :
    config_abort Fs o b t p = false ↔ (0 < Fs ∧ (0 < o ∧ o % 2 = 0) ∧ 0 < b) := by
  unfold config_abort config_asserts_ok
  simp [Bool.and_eq_true, decide_eq_true_eq, and_assoc]

/-- C5: the anomaly comparison of line 144 is strict: an in-window band
whose power is exactly `THRESHOLD × mean` is not flagged, while one
whose power strictly exceeds it is flagged. -/
theorem anomaly_threshold_strict (bw : ℚ) (bp : List ℚ) (band : ℕ)
    (hw : in_window bw band = true) :
    (bp.getD band 0 = THRESHOLD * avg_of bp → flagged bw bp band = false)
    ∧ (THRESHOLD * avg_of bp < bp.getD band 0 → flagged bw bp band = true) := by
  constructor
  · intro heq
    unfold flagged
    rw [hw, Bool.true_and, decide_eq_false_iff_not, heq]
    exact lt_irrefl _
  · intro hlt
    unfold flagged
    rw [hw, Bool.true_and, decide_eq_true_eq]
    exact hlt

/-- Witness for C5 at `bandwidth = 100000`, band 0, table `[4, 1, 1]`
whose band-0 power is exactly `THRESHOLD × mean = 4`. -/
theorem anomaly_threshold_strict_witness :
    in_window 100000 0 = true ∧
      ((([4, 1, 1] : List ℚ).getD 0 0 = THRESHOLD * avg_of [4, 1, 1] →
          flagged 100000 ([4, 1, 1] : List ℚ) 0 = false)
      ∧ (THRESHOLD * avg_of [4, 1, 1] < ([4, 1, 1] : List ℚ).getD 0 0 →
          flagged 100000 ([4, 1, 1] : List ℚ) 0 = true)) :=
  ⟨by
    unfold in_window
    rw [Bool.or_eq_true, Bool.and_eq_true, Bool.and_eq_true]
    refine Or.inr ⟨?_, ?_⟩ <;>
      · rw [decide_eq_true_eq]
        norm_num [band_high, ALIENS_LOW, ALIENS_HIGH],
    anomaly_threshold_strict 100000 [4, 1, 1] 0 (by
      unfold in_window
      rw [Bool.or_eq_true, Bool.and_eq_true, Bool.and_eq_true]
      refine Or.inr ⟨?_, ?_⟩ <;>
        · rw [decide_eq_true_eq]
          norm_num [band_high, ALIENS_LOW, ALIENS_HIGH])⟩

/-- C6: when at least one band is flagged, `analyze_signal` returns
`wow = 1` with `*lb` the low frequency edge of the lowest-indexed
flagged band and `*ub` the high frequency edge of the highest-indexed
flagged band, contiguous or not; when no band is flagged the result is
a no-anomaly result (`wow = 0`). -/
theorem anomaly_envelope_bounds (bw : ℚ) (bp : List ℚ) (hbw : 0 < bw) :
    (∀ b₀ b₁ : ℕ, b₀ < bp.length → flagged bw bp b₀ = true →
      (∀ b, b < b₀ → flagged bw bp b = false) →
      b₁ < bp.length → flagged bw bp b₁ = true →
      (∀ b, b₁ < b → b < bp.length → flagged bw bp b = false) →
      analyze_signal bw bp = ⟨true, band_low bw b₀, band_high bw b₁⟩)
    ∧ ((∀ b, b < bp.length → flagged bw bp b = false) →
      (analyze_signal bw bp).wow = false) := by
  constructor
  · intro b₀ b₁ hb₀ hf₀ hmin hb₁ hf₁ hmax
    have hhead := filter_range_head (flagged bw bp) bp.length b₀ hb₀ hf₀ hmin
    have hlast? := filter_range_getLast? (flagged bw bp) bp.length b₁ hb₁ hf₁ hmax
    unfold analyze_signal
    rw [analyze_foldl_flag bw hbw bp (List.range bp.length) ⟨false, -1, -1⟩ b₀
      ((List.range' (b₀ + 1) (bp.length - b₀ - 1)).filter (flagged bw bp)) hhead]
    rw [hhead] at hlast?
    rw [List.getLast?_eq_getLast _ (List.cons_ne_nil _ _)] at hlast?
    have hlgl := Option.some.inj hlast?
    rw [if_pos (by norm_num : (-1 : ℚ) < 0), hlgl]
  · intro hnone
    unfold analyze_signal
    rw [analyze_foldl_no_flag bw bp _ _ (fun b hb => hnone b (List.mem_range.mp hb))]

/-- Witness for C6 at `bandwidth = 100000` and table `[10, 0, 0]`,
where band 0 is the only flagged band. -/
theorem anomaly_envelope_bounds_witness :
    (0 : ℚ) < 100000 ∧
      analyze_signal 100000 ([10, 0, 0] : List ℚ) =
        ⟨true, band_low 100000 0, band_high 100000 0⟩ :=
  ⟨by norm_num,
    (anomaly_envelope_bounds 100000 [10, 0, 0] (by norm_num)).1 0 0 (by norm_num)
      (by
        rw [flagged_iff]
        refine ⟨Or.inr ?_, ?_⟩ <;>
          norm_num [band_high, avg_of, ALIENS_LOW, ALIENS_HIGH, THRESHOLD])
      (fun b hb => absurd hb (Nat.not_lt_zero b))
      (by norm_num)
      (by
        rw [flagged_iff]
        refine ⟨Or.inr ?_, ?_⟩ <;>
          norm_num [band_high, avg_of, ALIENS_LOW, ALIENS_HIGH, THRESHOLD])
      (by
        intro b hb1 hb2
        have hb2' : b < 3 := hb2
        interval_cases b <;>
          · rw [flagged_eq_false_iff]
            norm_num [band_low, band_high, avg_of, ALIENS_LOW, ALIENS_HIGH, THRESHOLD])⟩

/-- C8: with every real thread handle distinct from the sentinel, the
engine records each failed `pthread_create` (sentinel in `tid[i]`,
excluded from `num_started`), the join loop joins exactly the
successfully started workers and skips the failed ones, and the single
`analyze_signal` call is the last event, i.e. it runs only after every
started worker has been joined. -/
theorem failed_worker_start_skipped_at_join (outs : List CreateOutcome)
    (hh : ∀ o, o ∈ outs → o.handle ≠ DEADBEEF) :
    (∀ i, MainEvent.joinWorker i ∈ main_events outs ↔
      ∃ h : i < outs.length, (outs.get ⟨i, h⟩).ok = true)
    ∧ (main_events outs).getLast? = some MainEvent.analyze
    ∧ num_started outs = (outs.filter (fun o => o.ok)).length := by
  refine ⟨?_, ?_, num_started_eq_filter outs⟩
  · intro i
    unfold main_events
    rw [List.mem_append]
    constructor
    · rintro (hmem | hmem)
      · obtain ⟨j, hj, hji⟩ := List.mem_map.mp hmem
        have hij : j = i := by injection hji
        subst hij
        have hj' := List.mem_filter.mp hj
        have hjlt : j < outs.length := List.mem_range.mp hj'.1
        refine ⟨hjlt, ?_⟩
        by_contra hok
        have hok' : (outs.get ⟨j, hjlt⟩).ok = false := by
          revert hok; cases (outs.get ⟨j, hjlt⟩).ok <;> simp
        have hdead : (tid_array outs).getD j 0 = DEADBEEF := by
          rw [tid_array_getD outs j hjlt, hok']
          simp
        rw [hdead] at hj'
        simp at hj'
      · simp at hmem
    · rintro ⟨hilt, hok⟩
      refine Or.inl (List.mem_map.mpr ⟨i, ?_, rfl⟩)
      refine List.mem_filter.mpr ⟨List.mem_range.mpr hilt, ?_⟩
      rw [tid_array_getD outs i hilt, if_pos hok]
      have hne : (outs.get ⟨i, hilt⟩).handle ≠ DEADBEEF :=
        hh (outs.get ⟨i, hilt⟩) (outs.get_mem i hilt)
      have hne' : outs[i].handle ≠ DEADBEEF := hne
      simp [hne']
  · unfold main_events
    exact List.getLast?_concat _

/-- Witness for C8 with one successful and one failed thread start. -/
theorem failed_worker_start_skipped_at_join_witness :
    (∀ o, o ∈ [CreateOutcome.mk true 5, CreateOutcome.mk false 7] → o.handle ≠ DEADBEEF) ∧
      ((main_events [CreateOutcome.mk true 5, CreateOutcome.mk false 7]).getLast? =
          some MainEvent.analyze
        ∧ num_started [CreateOutcome.mk true 5, CreateOutcome.mk false 7] =
            (([CreateOutcome.mk true 5, CreateOutcome.mk false 7]).filter
              (fun o => o.ok)).length) :=
  ⟨by decide,
    (failed_worker_start_skipped_at_join
      [CreateOutcome.mk true 5, CreateOutcome.mk false 7] (by decide)).2⟩

end PBandScan
